import Mathlib

/-!
Verification of the IoT telemetry ingestion service (ingestor crate).

The Rust source is shallowly embedded: pure functions become Lean
functions, the async loops become explicit state/trace functions whose
external effects (JSON parsing, channel operations, database calls) are
supplied as oracles, and `f64` values appearing in comparisons are
modelled by a type `F` with IEEE-754 comparison semantics (NaN compares
false against everything, infinities are ordered, finite values are
modelled by rationals).  Metric updates are modelled as explicit events
or counters in the return values.
-/

namespace Ingestor

/-- Model of an `f64` as used by the validator: only `<` and `>`
comparisons are performed on telemetry fields, so NaN, the two
infinities and an exact rational payload capture the behaviour. -/
inductive F where
  | NaN : F
  | NegInf : F
  | PosInf : F
  | Fin (q : ℚ) : F
deriving DecidableEq

/-- IEEE-754 `<` on `F`: any comparison involving NaN is false;
`-inf < x` for every non-NaN `x` other than `-inf`; `+inf` is less
than nothing; finite values compare as rationals. -/
def flt : F → F → Bool
  | .NaN, _ => false
  | _, .NaN => false
  | .NegInf, .NegInf => false
  | .NegInf, _ => true
  | .PosInf, _ => false
  | .Fin _, .NegInf => false
  | .Fin _, .PosInf => true
  | .Fin a, .Fin b => a < b

/-- IEEE-754 `>` on `F` (mirror of `flt`). -/
def fgt (a b : F) : Bool := flt b a

/-- Telemetry record (src/ingestor/src/model.rs).  The timestamp is a
UTC instant with microsecond precision, modelled as an integer. -/
structure Telemetry where
  device_id : String
  timestamp : Int
  temperature : F
  humidity : F
  battery : F
deriving DecidableEq

def TEMP_MIN : F := .Fin (-50)
def TEMP_MAX : F := .Fin 100
def HUMIDITY_MIN : F := .Fin 0
def HUMIDITY_MAX : F := .Fin 100
def BATTERY_MIN : F := .Fin 0
def BATTERY_MAX : F := .Fin 100

/-- src/ingestor/src/validate.rs, `validate`: checks temperature,
humidity, battery ranges with `<`/`>` comparisons, then non-emptiness
of `device_id`.  Error strings carry the static part of the Rust
`format!` messages. -/
def validate (telemetry : Telemetry) : Except String Unit :=
  if flt telemetry.temperature TEMP_MIN || fgt telemetry.temperature TEMP_MAX then
    .error "Temperature out of range"
  else if flt telemetry.humidity HUMIDITY_MIN || fgt telemetry.humidity HUMIDITY_MAX then
    .error "Humidity out of range"
  else if flt telemetry.battery BATTERY_MIN || fgt telemetry.battery BATTERY_MAX then
    .error "Battery out of range"
  else if telemetry.device_id.isEmpty then
    .error "Device ID cannot be empty"
  else
    .ok ()

/-- Whether an `F` is a finite number. -/
def isFiniteF : F → Bool
  | .Fin _ => true
  | _ => false

/-- `lo ≤ x ≤ hi` with `x` required to be finite — the §3 constraint the
spec claims the validator enforces. -/
def finiteInRange (x : F) (lo hi : ℚ) : Bool :=
  match x with
  | .Fin q => decide (lo ≤ q) && decide (q ≤ hi)
  | _ => false

/-- The §3 record constraints, as the spec states them: non-empty
device id and finite in-range numeric fields. -/
def specValid (t : Telemetry) : Bool :=
  !t.device_id.isEmpty
    && finiteInRange t.temperature (-50) 100
    && finiteInRange t.humidity 0 100
    && finiteInRange t.battery 0 100

/-- A record with NaN temperature and otherwise valid fields. -/
def nanTelemetry : Telemetry :=
  { device_id := "dev-1", timestamp := 0,
    temperature := .NaN, humidity := .Fin 60, battery := .Fin 80 }

/-- Model of `sqlx::Error` as consumed by `is_transient_error`
(src/ingestor/src/db.rs): the three shape-level variants the code
names, database-level errors carrying an optional SQLSTATE code, and a
representative of the remaining variants caught by the wildcard arm. -/
inductive SqlxError where
  | PoolTimedOut : SqlxError
  | PoolClosed : SqlxError
  | Io : SqlxError
  | Database (code : Option String) : SqlxError
  | RowNotFound : SqlxError
deriving DecidableEq

/-- Model of `crate::errors::Error` (src/ingestor/src/errors.rs). -/
inductive Error where
  | Mqtt : Error
  | Database (e : SqlxError) : Error
  | Migration : Error
  | Validation (msg : String) : Error
  | Json (msg : String) : Error
  | Io : Error
  | ChannelSend : Error
deriving DecidableEq

/-- src/ingestor/src/db.rs, `is_transient_error`: pool timeout, I/O and
pool-closed errors are transient, as are database-level errors whose
SQLSTATE is one of the five connection-related codes. -/
def is_transient_error (err : SqlxError) : Bool :=
  match err with
  | .PoolTimedOut | .Io | .PoolClosed => true
  | .Database code =>
      match code with
      | some c =>
          c == "08000" || c == "08003" || c == "08006" || c == "57P03" || c == "53300"
      | none => false
  | _ => false

/-- src/ingestor/src/mqtt.rs, `is_retryable_error`: ChannelSend and
every Database error are retryable; the rest are not. -/
def is_retryable_error (error : Error) : Bool :=
  match error with
  | .ChannelSend => true
  | .Database _ => true
  | .Validation _ => false
  | .Mqtt => false
  | .Json _ => false
  | .Io => false
  | .Migration => false

def MAX_RETRIES : Nat := 3
def INITIAL_BACKOFF_MS : Nat := 100
def MAX_BACKOFF_MS : Nat := 2000

/-- Observable metric/timing events of the consumer path
(src/ingestor/src/metrics.rs counters plus sleeps). -/
inductive MEvent where
  | incMessages : MEvent
  | incValid : MEvent
  | incInvalid : MEvent
  | incChannelFull : MEvent
  | sleep (ms : Nat) : MEvent
deriving DecidableEq

/-- Result of the non-blocking `try_send` on the handoff channel. -/
inductive TrySendRes where
  | ok : TrySendRes
  | full : TrySendRes
  | closed : TrySendRes
deriving DecidableEq

/-- Result of the blocking `send` on the handoff channel. -/
inductive SendRes where
  | ok : SendRes
  | closed : SendRes
deriving DecidableEq

/-- Environment of one `process_message` call: the outcome of the JSON
parse of the payload and the channel's responses, should the code reach
them. -/
structure MsgAttempt where
  parse : Except String Telemetry
  chTry : TrySendRes
  chSend : SendRes

/-- src/ingestor/src/mqtt.rs, `process_message`: parse the payload
(parse failures become `Validation` errors whose text embeds the parse
error), validate, then try a non-blocking send; on Full increment
`channel_full_total`, sleep 1 ms and fall back to a blocking send; a
closed channel yields `ChannelSend`.  Returns the emitted events and
the result. -/
def process_message (a : MsgAttempt) : List MEvent × Except Error Unit :=
  match a.parse with
  | .error e => ([], .error (.Validation (String.append "JSON parse error: " e)))
  | .ok telemetry =>
      match validate telemetry with
      | .error msg => ([], .error (.Validation msg))
      | .ok _ =>
          match a.chTry with
          | .ok => ([.incValid], .ok ())
          | .full =>
              match a.chSend with
              | .ok => ([.incChannelFull, .sleep 1, .incValid], .ok ())
              | .closed => ([.incChannelFull, .sleep 1], .error .ChannelSend)
          | .closed => ([], .error .ChannelSend)

/-- src/ingestor/src/mqtt.rs, `process_message_with_retry`, inner loop
with the `attempt` counter and current backoff explicit.  Returns the
events emitted over all attempts, the final result and the number of
attempts made.  `o n` is the environment of attempt `n`. -/
def retryLoop (o : Nat → MsgAttempt) (attempt backoff_ms : Nat) :
    List MEvent × Except Error Unit × Nat :=
  match process_message (o (attempt + 1)) with
  | (evs, .ok _) => (evs, .ok (), attempt + 1)
  | (evs, .error e) =>
      if MAX_RETRIES ≤ attempt + 1 then (evs, .error e, attempt + 1)
      else if is_retryable_error e then
        let rest := retryLoop o (attempt + 1) (min (backoff_ms * 2) MAX_BACKOFF_MS)
        (evs ++ .sleep backoff_ms :: rest.1, rest.2.1, rest.2.2)
      else (evs, .error e, attempt + 1)
termination_by MAX_RETRIES - attempt
decreasing_by
  simp only [MAX_RETRIES] at *
  omega

/-- `process_message_with_retry`: the loop entered with attempt 0 and a
100 ms initial backoff. -/
def process_message_with_retry (o : Nat → MsgAttempt) :
    List MEvent × Except Error Unit × Nat :=
  retryLoop o 0 INITIAL_BACKOFF_MS

end Ingestor

namespace Ingestor

/-- C1: the claim says `validate` succeeds iff the device id is
non-empty and every numeric field is finite and in range, NaN being
rejected as out-of-range.  The code checks ranges with `<`/`>` only,
and every IEEE comparison against NaN is false, so a NaN field passes
both bound checks: `validate` accepts a record with NaN temperature
although the spec's constraints reject it. -/
theorem validate_accepts_nan_temperature :
    validate nanTelemetry = .ok () ∧ specValid nanTelemetry = false := by
  constructor
  · rfl
  · rfl

/-- Every call of `retryLoop` reports at least `attempt + 1` attempts
made. -/
theorem retryLoop_attempts_lower (o : Nat → MsgAttempt) (attempt backoff_ms : Nat) :
    attempt + 1 ≤ (retryLoop o attempt backoff_ms).2.2 := by
  induction attempt, backoff_ms using retryLoop.induct o with
  | case1 attempt backoff evs u h =>
      rw [retryLoop]; simp only [h]; omega
  | case2 attempt backoff evs e h hge =>
      rw [retryLoop]; simp only [h, if_pos hge]; omega
  | case3 attempt backoff evs e h hge hr ih =>
      rw [retryLoop]; simp only [h, if_neg hge, if_pos hr]; omega
  | case4 attempt backoff evs e h hge hr =>
      rw [retryLoop]; simp only [h, if_neg hge, if_neg hr]; omega

/-- C6: `is_transient_error` returns true exactly on pool timeouts,
I/O errors, pool-closed errors, and database-level errors whose
SQLSTATE is one of the five listed connection codes; every other
database error is permanent. -/
theorem is_transient_error_characterization (e : SqlxError) :
    is_transient_error e = true ↔
      (e = .PoolTimedOut ∨ e = .Io ∨ e = .PoolClosed ∨
        ∃ c, e = .Database (some c) ∧
          (c = "08000" ∨ c = "08003" ∨ c = "08006" ∨ c = "57P03" ∨ c = "53300")) := by
  cases e with
  | PoolTimedOut => simp [is_transient_error]
  | PoolClosed => simp [is_transient_error]
  | Io => simp [is_transient_error]
  | RowNotFound => simp [is_transient_error]
  | Database code =>
      cases code with
      | none => simp [is_transient_error]
      | some c =>
          simp only [is_transient_error, Bool.or_eq_true, beq_iff_eq]
          constructor
          · intro h
            exact Or.inr (Or.inr (Or.inr ⟨c, rfl, by tauto⟩))
          · rintro (h | h | h | ⟨c2, hc, hp⟩)
            · exact SqlxError.noConfusion h
            · exact SqlxError.noConfusion h
            · exact SqlxError.noConfusion h
            · injection hc with hc2
              injection hc2 with hc3
              subst hc3
              tauto

/-- C2 counterexample: SQLSTATE 23505 (unique violation) is a permanent
database error, yet `is_retryable_error` classifies the corresponding
`Error::Database` as retryable. -/
theorem permanent_db_error_classified_retryable :
    is_retryable_error (.Database (.Database (some "23505"))) = true ∧
    is_transient_error (.Database (some "23505")) = false := by
  exact ⟨rfl, rfl⟩

/-- C2 (amended): the retryable set of `is_retryable_error` is exactly
ChannelSend together with every Database error, transient or not;
in the retry loop a first-attempt failure with a non-retryable error
returns immediately after that single attempt, while a retryable
first-attempt failure leads to at least a second attempt. -/
theorem retry_policy_characterization :
    (∀ e, is_retryable_error e = true ↔
        (e = .ChannelSend ∨ ∃ d, e = .Database d)) ∧
    (∀ o evs e, process_message (o 1) = (evs, .error e) → is_retryable_error e = false →
        process_message_with_retry o = (evs, .error e, 1)) ∧
    (∀ o evs e, process_message (o 1) = (evs, .error e) → is_retryable_error e = true →
        2 ≤ (process_message_with_retry o).2.2) := by
  have h3 : ¬ (MAX_RETRIES ≤ 0 + 1) := by simp [MAX_RETRIES]
  refine ⟨?_, ?_, ?_⟩
  · intro e
    cases e <;> simp [is_retryable_error]
  · intro o evs e h hr
    unfold process_message_with_retry
    rw [retryLoop]
    simp only [Nat.zero_add, h, if_neg h3, hr, Bool.false_eq_true, if_false]
  · intro o evs e h hr
    unfold process_message_with_retry
    rw [retryLoop]
    simp only [Nat.zero_add, h, if_neg h3, if_pos hr]
    have hlow := retryLoop_attempts_lower o 1 (min (INITIAL_BACKOFF_MS * 2) MAX_BACKOFF_MS)
    omega

/-- C2 amended, witness: a JSON parse failure is not retried (one
attempt, immediate Validation error), and a ChannelSend failure on a
valid record leads to a second attempt. -/
theorem retry_policy_characterization_witness :
    process_message_with_retry
        (fun _ => ⟨.error "bad", .ok, .ok⟩) =
      ([], .error (.Validation (String.append "JSON parse error: " "bad")), 1) ∧
    2 ≤ (process_message_with_retry
        (fun _ => ⟨.ok nanTelemetry, .closed, .ok⟩)).2.2 := by
  constructor
  · exact retry_policy_characterization.2.1
      (fun _ => ⟨.error "bad", .ok, .ok⟩) []
      (.Validation (String.append "JSON parse error: " "bad")) rfl rfl
  · exact retry_policy_characterization.2.2
      (fun _ => ⟨.ok nanTelemetry, .closed, .ok⟩) [] .ChannelSend rfl rfl

/-- A record that passes validation. -/
def okTelemetry : Telemetry :=
  { device_id := "dev-1", timestamp := 0,
    temperature := .Fin 25, humidity := .Fin 60, battery := .Fin 80 }

/-- C8: for a validated record the consumer first attempts a
non-blocking `try_send`; on Full it increments `channel_full_total`,
sleeps 1 ms and performs the blocking send; it fails with ChannelSend
if the channel is closed, whether observed by `try_send` or by the
blocking send. -/
theorem enqueue_policy_characterization (a : MsgAttempt) (t : Telemetry)
    (hp : a.parse = .ok t) (hv : validate t = .ok ()) :
    (a.chTry = .ok → process_message a = ([.incValid], .ok ())) ∧
    (a.chTry = .full → a.chSend = .ok →
        process_message a = ([.incChannelFull, .sleep 1, .incValid], .ok ())) ∧
    (a.chTry = .full → a.chSend = .closed →
        process_message a = ([.incChannelFull, .sleep 1], .error .ChannelSend)) ∧
    (a.chTry = .closed → process_message a = ([], .error .ChannelSend)) := by
  refine ⟨?_, ?_, ?_, ?_⟩
  · intro h1
    simp [process_message, hp, hv, h1]
  · intro h1 h2
    simp [process_message, hp, hv, h1, h2]
  · intro h1 h2
    simp [process_message, hp, hv, h1, h2]
  · intro h1
    simp [process_message, hp, hv, h1]

/-- C8 witness: the four channel outcomes at a concrete valid record. -/
theorem enqueue_policy_characterization_witness :
    process_message ⟨.ok okTelemetry, .ok, .ok⟩ = ([.incValid], .ok ()) ∧
    process_message ⟨.ok okTelemetry, .full, .ok⟩ =
      ([.incChannelFull, .sleep 1, .incValid], .ok ()) ∧
    process_message ⟨.ok okTelemetry, .full, .closed⟩ =
      ([.incChannelFull, .sleep 1], .error .ChannelSend) ∧
    process_message ⟨.ok okTelemetry, .closed, .ok⟩ = ([], .error .ChannelSend) := by
  refine ⟨?_, ?_, ?_, ?_⟩
  · exact (enqueue_policy_characterization ⟨.ok okTelemetry, .ok, .ok⟩
      okTelemetry rfl rfl).1 rfl
  · exact (enqueue_policy_characterization ⟨.ok okTelemetry, .full, .ok⟩
      okTelemetry rfl rfl).2.1 rfl rfl
  · exact (enqueue_policy_characterization ⟨.ok okTelemetry, .full, .closed⟩
      okTelemetry rfl rfl).2.2.1 rfl rfl
  · exact (enqueue_policy_characterization ⟨.ok okTelemetry, .closed, .ok⟩
      okTelemetry rfl rfl).2.2.2 rfl

/-- C9: a payload failing the JSON parse is surfaced as a `Validation`
error embedding the parse error text, and the `Json` variant is never
produced on the message-processing path. -/
theorem json_errors_surfaced_as_validation :
    (∀ a e, a.parse = .error e →
        process_message a =
          ([], .error (.Validation (String.append "JSON parse error: " e)))) ∧
    (∀ a s, (process_message a).2 ≠ .error (.Json s)) := by
  constructor
  · intro a e hp
    simp [process_message, hp]
  · intro a s
    obtain ⟨p, ct, cs⟩ := a
    cases p with
    | error e => simp [process_message]
    | ok t =>
        cases hv : validate t with
        | error m => simp [process_message, hv]
        | ok u => cases ct <;> cases cs <;> simp [process_message, hv]

/-- C9 witness: a concrete malformed payload yields the embedded
Validation error. -/
theorem json_errors_surfaced_as_validation_witness :
    process_message ⟨.error "expected value", .ok, .ok⟩ =
      ([], .error (.Validation (String.append "JSON parse error: " "expected value"))) :=
  json_errors_surfaced_as_validation.1 ⟨.error "expected value", .ok, .ok⟩
    "expected value" rfl

/-- The three consumer counters plus the backpressure counter
(src/ingestor/src/metrics.rs). -/
structure Counters where
  messages : Nat
  valid : Nat
  invalid : Nat
  channelFull : Nat
deriving DecidableEq

/-- All counters start at zero. -/
def initialCounters : Counters := ⟨0, 0, 0, 0⟩

/-- Effect of one metric event on the counters. -/
def applyEvent (c : Counters) : MEvent → Counters
  | .incMessages => { c with messages := c.messages + 1 }
  | .incValid => { c with valid := c.valid + 1 }
  | .incInvalid => { c with invalid := c.invalid + 1 }
  | .incChannelFull => { c with channelFull := c.channelFull + 1 }
  | .sleep _ => c

def applyEvents (c : Counters) (es : List MEvent) : Counters :=
  es.foldl applyEvent c

/-- One iteration of the `run_mqtt` event loop
(src/ingestor/src/mqtt.rs): either a poll error (log, sleep 1 s) or an
incoming publish, processed with retry. -/
inductive MqttItem where
  | pollErr : MqttItem
  | publish (o : Nat → MsgAttempt) : MqttItem

/-- Metric events of one incoming publish: `messages_total` is
incremented first, then the retry loop runs, and a final failure
increments `invalid_messages_total` (`valid_messages_total` is
incremented inside `process_message` on success). -/
def publishEvents (o : Nat → MsgAttempt) : List MEvent :=
  .incMessages ::
    ((process_message_with_retry o).1 ++
      (match (process_message_with_retry o).2.1 with
       | .ok _ => []
       | .error _ => [.incInvalid]))

/-- Metric events of the whole consumer loop over a list of incoming
items. -/
def run_mqtt_events : List MqttItem → List MEvent
  | [] => []
  | .pollErr :: rest => .sleep 1000 :: run_mqtt_events rest
  | .publish o :: rest => publishEvents o ++ run_mqtt_events rest

/-- Events that touch none of the three message counters. -/
def noCountEvents (L : List MEvent) : Bool :=
  L.all fun ev => ev != .incMessages && ev != .incValid && ev != .incInvalid

theorem applyEvents_noCount (L : List MEvent) :
    ∀ c : Counters, noCountEvents L = true →
      (applyEvents c L).messages = c.messages ∧
      (applyEvents c L).valid = c.valid ∧
      (applyEvents c L).invalid = c.invalid := by
  induction L with
  | nil => intro c _; exact ⟨rfl, rfl, rfl⟩
  | cons ev L ih =>
      intro c h
      simp only [noCountEvents, List.all_cons, Bool.and_eq_true, bne_iff_ne, ne_eq] at h
      obtain ⟨⟨⟨hm, hv⟩, hi⟩, hL⟩ := h
      cases ev with
      | incMessages => exact absurd rfl hm
      | incValid => exact absurd rfl hv
      | incInvalid => exact absurd rfl hi
      | incChannelFull => exact ih _ hL
      | sleep ms => exact ih _ hL

theorem noCountEvents_take (L : List MEvent) (h : noCountEvents L = true) (m : Nat) :
    noCountEvents (L.take m) = true := by
  simp only [noCountEvents, List.all_eq_true] at h ⊢
  intro x hx
  exact h x (List.take_subset m L hx)

theorem process_message_err_events (a : MsgAttempt) (evs : List MEvent) (e : Error)
    (h : process_message a = (evs, .error e)) : noCountEvents evs = true := by
  obtain ⟨p, ct, cs⟩ := a
  cases p with
  | error pe =>
      simp only [process_message, Prod.mk.injEq] at h
      rw [← h.1]; rfl
  | ok t =>
      cases hv : validate t with
      | error m =>
          simp only [process_message, hv, Prod.mk.injEq] at h
          rw [← h.1]; rfl
      | ok u =>
          cases ct with
          | ok => simp [process_message, hv] at h
          | full =>
              cases cs with
              | ok => simp [process_message, hv] at h
              | closed =>
                  simp only [process_message, hv, Prod.mk.injEq] at h
                  rw [← h.1]; rfl
          | closed =>
              simp only [process_message, hv, Prod.mk.injEq] at h
              rw [← h.1]; rfl

theorem process_message_ok_events (a : MsgAttempt) (evs : List MEvent) (u : Unit)
    (h : process_message a = (evs, .ok u)) :
    ∃ L, noCountEvents L = true ∧ evs = L ++ [.incValid] := by
  obtain ⟨p, ct, cs⟩ := a
  cases p with
  | error pe => simp [process_message] at h
  | ok t =>
      cases hv : validate t with
      | error m => simp [process_message, hv] at h
      | ok v =>
          cases ct with
          | ok =>
              simp only [process_message, hv, Prod.mk.injEq] at h
              exact ⟨[], rfl, h.1.symm⟩
          | full =>
              cases cs with
              | ok =>
                  simp only [process_message, hv, Prod.mk.injEq] at h
                  exact ⟨[.incChannelFull, .sleep 1], rfl, h.1.symm⟩
              | closed => simp [process_message, hv] at h
          | closed => simp [process_message, hv] at h

theorem retryLoop_events_shape (o : Nat → MsgAttempt) (attempt backoff_ms : Nat) :
    (∃ L, noCountEvents L = true ∧ (retryLoop o attempt backoff_ms).2.1 = .ok () ∧
        (retryLoop o attempt backoff_ms).1 = L ++ [.incValid]) ∨
    (∃ e, (retryLoop o attempt backoff_ms).2.1 = .error e ∧
        noCountEvents (retryLoop o attempt backoff_ms).1 = true) := by
  induction attempt, backoff_ms using retryLoop.induct o with
  | case1 attempt backoff evs u h =>
      obtain ⟨L, hL, hevs⟩ := process_message_ok_events _ _ _ h
      left
      refine ⟨L, hL, ?_, ?_⟩
      · rw [retryLoop]; simp only [h]
      · rw [retryLoop]; simp only [h]; exact hevs
  | case2 attempt backoff evs e h hge =>
      right
      refine ⟨e, ?_, ?_⟩
      · rw [retryLoop]; simp only [h, if_pos hge]
      · rw [retryLoop]; simp only [h, if_pos hge]
        exact process_message_err_events _ _ _ h
  | case3 attempt backoff evs e h hge hr ih =>
      have hevs : noCountEvents evs = true := process_message_err_events _ _ _ h
      rcases ih with ⟨L, hL, h21, h1⟩ | ⟨e2, h21, hNC⟩
      · left
        refine ⟨evs ++ .sleep backoff :: L, ?_, ?_, ?_⟩
        · simp only [noCountEvents, List.all_append, List.all_cons, Bool.and_eq_true] at *
          exact ⟨hevs, by simp, hL⟩
        · rw [retryLoop]; simp only [h, if_neg hge, if_pos hr]
          exact h21
        · rw [retryLoop]; simp only [h, if_neg hge, if_pos hr]
          rw [h1]
          simp
      · right
        refine ⟨e2, ?_, ?_⟩
        · rw [retryLoop]; simp only [h, if_neg hge, if_pos hr]
          exact h21
        · rw [retryLoop]; simp only [h, if_neg hge, if_pos hr]
          simp only [noCountEvents, List.all_append, List.all_cons, Bool.and_eq_true] at *
          exact ⟨hevs, by simp, hNC⟩
  | case4 attempt backoff evs e h hge hr =>
      right
      refine ⟨e, ?_, ?_⟩
      · rw [retryLoop]; simp only [h, if_neg hge, if_neg hr]
      · rw [retryLoop]; simp only [h, if_neg hge, if_neg hr]
        exact process_message_err_events _ _ _ h

theorem publishEvents_shape (o : Nat → MsgAttempt) :
    ∃ L last, noCountEvents L = true ∧
      (last = MEvent.incValid ∨ last = MEvent.incInvalid) ∧
      publishEvents o = .incMessages :: (L ++ [last]) := by
  rcases retryLoop_events_shape o 0 INITIAL_BACKOFF_MS with ⟨L, hL, h21, h1⟩ | ⟨e, h21, hNC⟩
  · refine ⟨L, .incValid, hL, Or.inl rfl, ?_⟩
    unfold publishEvents process_message_with_retry
    rw [h21, h1]
    simp
  · refine ⟨(retryLoop o 0 INITIAL_BACKOFF_MS).1, .incInvalid, hNC, Or.inr rfl, ?_⟩
    unfold publishEvents process_message_with_retry
    rw [h21]

/-- Applying a full message trace to quiescent counters restores
quiescence, adding one to `messages` and one to exactly one of
`valid`/`invalid`. -/
theorem applyEvents_full_message (c : Counters) (L : List MEvent) (last : MEvent)
    (hL : noCountEvents L = true)
    (hlast : last = MEvent.incValid ∨ last = MEvent.incInvalid)
    (hq : c.valid + c.invalid = c.messages) :
    (applyEvents c (.incMessages :: (L ++ [last]))).valid +
      (applyEvents c (.incMessages :: (L ++ [last]))).invalid =
      (applyEvents c (.incMessages :: (L ++ [last]))).messages := by
  have hstep : applyEvents c (.incMessages :: (L ++ [last])) =
      applyEvent (applyEvents (applyEvent c .incMessages) L) last := by
    simp [applyEvents, List.foldl_append]
  obtain ⟨e1, e2, e3⟩ := applyEvents_noCount L (applyEvent c .incMessages) hL
  rcases hlast with h | h <;> subst h <;>
    simp only [hstep, applyEvent] at * <;> omega

/-- Any proper prefix of a message trace keeps
`valid + invalid ≤ messages` when starting from quiescent counters. -/
theorem applyEvents_message_prefix (c : Counters) (L : List MEvent) (last : MEvent)
    (hL : noCountEvents L = true)
    (hlast : last = MEvent.incValid ∨ last = MEvent.incInvalid)
    (hq : c.valid + c.invalid = c.messages) (n : Nat) :
    (applyEvents c ((MEvent.incMessages :: (L ++ [last])).take n)).valid +
      (applyEvents c ((MEvent.incMessages :: (L ++ [last])).take n)).invalid ≤
      (applyEvents c ((MEvent.incMessages :: (L ++ [last])).take n)).messages := by
  cases n with
  | zero => simpa [applyEvents] using le_of_eq hq
  | succ m =>
      rw [List.take_succ_cons]
      by_cases hm : m ≤ L.length
      · rw [List.take_append_of_le_length hm]
        obtain ⟨e1, e2, e3⟩ :=
          applyEvents_noCount (L.take m) (applyEvent c .incMessages)
            (noCountEvents_take L hL m)
        have hstep : applyEvents c (.incMessages :: L.take m) =
            applyEvents (applyEvent c .incMessages) (L.take m) := rfl
        simp only [hstep, applyEvent] at *
        omega
      · have hfull : (L ++ [last]).take m = L ++ [last] := by
          apply List.take_of_length_le
          simp
          omega
        rw [hfull]
        exact le_of_eq (applyEvents_full_message c L last hL hlast hq)

/-- The consumer-loop trace keeps the invariant at every prefix and is
quiescent at every item boundary. -/
theorem run_mqtt_events_inv (items : List MqttItem) :
    ∀ c : Counters, c.valid + c.invalid = c.messages →
      (∀ n, (applyEvents c ((run_mqtt_events items).take n)).valid +
          (applyEvents c ((run_mqtt_events items).take n)).invalid ≤
          (applyEvents c ((run_mqtt_events items).take n)).messages) ∧
      (applyEvents c (run_mqtt_events items)).valid +
          (applyEvents c (run_mqtt_events items)).invalid =
          (applyEvents c (run_mqtt_events items)).messages := by
  induction items with
  | nil =>
      intro c hq
      refine ⟨fun n => ?_, hq⟩
      simp only [run_mqtt_events, List.take_nil]
      exact le_of_eq hq
  | cons item rest ih =>
      intro c hq
      cases item with
      | pollErr =>
          have hsleep : applyEvent c (.sleep 1000) = c := rfl
          constructor
          · intro n
            cases n with
            | zero => simpa [applyEvents] using le_of_eq hq
            | succ m =>
                simp only [run_mqtt_events, List.take_succ_cons]
                have hstep : applyEvents c (.sleep 1000 :: (run_mqtt_events rest).take m) =
                    applyEvents c ((run_mqtt_events rest).take m) := rfl
                rw [hstep]
                exact (ih c hq).1 m
          · simp only [run_mqtt_events]
            have hstep : applyEvents c (.sleep 1000 :: run_mqtt_events rest) =
                applyEvents c (run_mqtt_events rest) := rfl
            rw [hstep]
            exact (ih c hq).2
      | publish o =>
          obtain ⟨L, last, hL, hlast, hEq⟩ := publishEvents_shape o
          have hquies := applyEvents_full_message c L last hL hlast hq
          have hfull : applyEvents c (publishEvents o) =
              applyEvents c (.incMessages :: (L ++ [last])) := by rw [hEq]
          constructor
          · intro n
            simp only [run_mqtt_events]
            by_cases hn : n ≤ (publishEvents o).length
            · rw [List.take_append_of_le_length hn, hEq]
              exact applyEvents_message_prefix c L last hL hlast hq n
            · rw [List.take_append_eq_append_take]
              have hto : (publishEvents o).take n = publishEvents o :=
                List.take_of_length_le (by omega)
              rw [hto]
              have hsplit : applyEvents c (publishEvents o ++
                  (run_mqtt_events rest).take (n - (publishEvents o).length)) =
                  applyEvents (applyEvents c (publishEvents o))
                    ((run_mqtt_events rest).take (n - (publishEvents o).length)) := by
                simp [applyEvents, List.foldl_append]
              rw [hsplit]
              refine (ih (applyEvents c (publishEvents o)) ?_).1 _
              rw [hfull]
              exact hquies
          · simp only [run_mqtt_events]
            have hsplit : applyEvents c (publishEvents o ++ run_mqtt_events rest) =
                applyEvents (applyEvents c (publishEvents o)) (run_mqtt_events rest) := by
              simp [applyEvents, List.foldl_append]
            rw [hsplit]
            refine (ih (applyEvents c (publishEvents o)) ?_).2
            rw [hfull]
            exact hquies

/-- Count of an event that never occurs in a no-count list. -/
theorem noCountEvents_count (L : List MEvent) (h : noCountEvents L = true) :
    L.count MEvent.incMessages = 0 ∧ L.count MEvent.incValid = 0 ∧
      L.count MEvent.incInvalid = 0 := by
  simp only [noCountEvents, List.all_eq_true, Bool.and_eq_true, bne_iff_ne, ne_eq] at h
  refine ⟨?_, ?_, ?_⟩ <;> rw [List.count_eq_zero] <;> intro hmem
  · exact (h _ hmem).1.1 rfl
  · exact (h _ hmem).1.2 rfl
  · exact (h _ hmem).2 rfl

/-- C7: starting from zeroed counters, at every prefix of the consumer
trace `valid_messages_total + invalid_messages_total ≤ messages_total`;
after the loop has finished its items (quiescence) the two sides are
equal; and the trace of each single publish increments `messages_total`
exactly once and exactly one of `valid_messages_total` and
`invalid_messages_total`. -/
theorem metrics_counter_invariant (items : List MqttItem) :
    (∀ n, (applyEvents initialCounters ((run_mqtt_events items).take n)).valid +
        (applyEvents initialCounters ((run_mqtt_events items).take n)).invalid ≤
        (applyEvents initialCounters ((run_mqtt_events items).take n)).messages) ∧
    ((applyEvents initialCounters (run_mqtt_events items)).valid +
        (applyEvents initialCounters (run_mqtt_events items)).invalid =
        (applyEvents initialCounters (run_mqtt_events items)).messages) ∧
    (∀ o, (publishEvents o).count MEvent.incMessages = 1 ∧
        (publishEvents o).count MEvent.incValid +
          (publishEvents o).count MEvent.incInvalid = 1) := by
  refine ⟨(run_mqtt_events_inv items initialCounters rfl).1,
          (run_mqtt_events_inv items initialCounters rfl).2, ?_⟩
  intro o
  obtain ⟨L, last, hL, hlast, hEq⟩ := publishEvents_shape o
  obtain ⟨c1, c2, c3⟩ := noCountEvents_count L hL
  rw [hEq]
  rcases hlast with h | h <;> subst h <;>
    simp [List.count_cons, List.count_append, c1, c2, c3]

/-- Retry budget of the batch writer's flush loop
(src/ingestor/src/batching.rs, `const MAX_RETRIES: u32 = 3`). -/
def FLUSH_MAX_RETRIES : Nat := 3

/-- Observable outcome of `flush_batch`: the `batch_size` gauge at
return, the remaining buffer, and the batch contents handed to
`insert_batch` on each attempt. -/
structure FlushOut where
  gauge : Nat
  buffer : List Telemetry
  batches : List (List Telemetry)
deriving DecidableEq

/-- The retry loop inside `flush_batch`.  `ins n` is the result of the
`insert_batch` call on attempt `n`.  On success the buffer is cleared
and the gauge reset; after the third failed attempt the buffer is
likewise cleared (records dropped) and the gauge reset; otherwise the
loop sleeps and retries with the buffer untouched. -/
def flushLoop (buffer : List Telemetry) (ins : Nat → Except Error Unit) (attempt : Nat) :
    FlushOut :=
  match ins (attempt + 1) with
  | .ok _ => ⟨0, [], [buffer]⟩
  | .error _ =>
      if FLUSH_MAX_RETRIES ≤ attempt + 1 then ⟨0, [], [buffer]⟩
      else
        let rest := flushLoop buffer ins (attempt + 1)
        ⟨rest.gauge, rest.buffer, buffer :: rest.batches⟩
termination_by FLUSH_MAX_RETRIES - attempt
decreasing_by
  simp only [FLUSH_MAX_RETRIES] at *
  omega

/-- src/ingestor/src/batching.rs, `flush_batch`: returns immediately on
an empty buffer (gauge untouched), otherwise runs the retry loop. -/
def flush_batch (gauge : Nat) (buffer : List Telemetry) (ins : Nat → Except Error Unit) :
    FlushOut :=
  if buffer.length = 0 then ⟨gauge, buffer, []⟩
  else flushLoop buffer ins 0

theorem flushLoop_spec (buffer : List Telemetry) (ins : Nat → Except Error Unit)
    (attempt : Nat) :
    (flushLoop buffer ins attempt).buffer = [] ∧
    (flushLoop buffer ins attempt).gauge = 0 ∧
    ∀ b ∈ (flushLoop buffer ins attempt).batches, b = buffer := by
  induction attempt using flushLoop.induct buffer ins with
  | case1 attempt u h =>
      rw [flushLoop]; simp [h]
  | case2 attempt e h hge =>
      rw [flushLoop]; simp [h, if_pos hge]
  | case3 attempt e h hge ih =>
      rw [flushLoop]; simp only [h, if_neg hge]
      obtain ⟨h1, h2, h3⟩ := ih
      refine ⟨h1, h2, ?_⟩
      intro b hb
      rcases List.mem_cons.mp hb with hb | hb
      · exact hb
      · exact h3 b hb

/-- C3: invoked on a non-empty buffer, `flush_batch` returns with the
buffer empty and the gauge at 0 — whether the insert succeeded or the
third attempt failed and the records were dropped — and every attempt
before the clearing saw the unchanged original buffer contents. -/
theorem flush_batch_clears_buffer_and_gauge (gauge : Nat) (buffer : List Telemetry)
    (ins : Nat → Except Error Unit) (h : buffer ≠ []) :
    (flush_batch gauge buffer ins).buffer = [] ∧
    (flush_batch gauge buffer ins).gauge = 0 ∧
    ∀ b ∈ (flush_batch gauge buffer ins).batches, b = buffer := by
  have hlen : ¬ buffer.length = 0 := by
    simpa [List.length_eq_zero] using h
  unfold flush_batch
  rw [if_neg hlen]
  exact flushLoop_spec buffer ins 0

/-- C3 witness: a buffer of one record whose inserts always fail is
cleared with the gauge reset after the third attempt. -/
theorem flush_batch_clears_buffer_and_gauge_witness :
    (flush_batch 5 [okTelemetry] (fun _ => .error (.Database .PoolTimedOut))).buffer = [] ∧
    (flush_batch 5 [okTelemetry] (fun _ => .error (.Database .PoolTimedOut))).gauge = 0 := by
  have h := flush_batch_clears_buffer_and_gauge 5 [okTelemetry]
    (fun _ => .error (.Database .PoolTimedOut)) (by simp)
  exact ⟨h.1, h.2.1⟩

/-- Events seen by the batch writer's select loop: a received record or
a timer tick. -/
inductive BatchEvent where
  | recv (t : Telemetry) : BatchEvent
  | tick : BatchEvent

/-- Which trigger caused a flush. -/
inductive FlushTrigger where
  | size : FlushTrigger
  | timer : FlushTrigger
deriving DecidableEq

/-- State of `run_batcher`: the buffer, plus the log of flushed
batches (each tagged with its trigger).  `flush_batch` always clears a
non-empty buffer (theorem `flushLoop_spec`), so a flush is modelled as
clearing the buffer and logging the batch. -/
structure BatcherState where
  buffer : List Telemetry
  flushes : List (FlushTrigger × List Telemetry)

/-- src/ingestor/src/batching.rs, `run_batcher` loop body: a received
record is appended and a flush fires iff the buffer length reached
`max_batch`; a tick flushes a non-empty buffer and ignores an empty
one. -/
def batcherStep (max_batch : Nat) (st : BatcherState) : BatchEvent → BatcherState
  | .recv t =>
      if max_batch ≤ (st.buffer ++ [t]).length then
        ⟨[], st.flushes ++ [(.size, st.buffer ++ [t])]⟩
      else
        ⟨st.buffer ++ [t], st.flushes⟩
  | .tick =>
      if st.buffer.isEmpty then st
      else ⟨[], st.flushes ++ [(.timer, st.buffer)]⟩

/-- The batcher run from the empty initial state. -/
def batcherRun (max_batch : Nat) (events : List BatchEvent) : BatcherState :=
  events.foldl (batcherStep max_batch) ⟨[], []⟩

theorem batcherStep_preserves (max_batch : Nat) (hmb : 1 ≤ max_batch)
    (st : BatcherState) (e : BatchEvent)
    (hbuf : st.buffer.length < max_batch)
    (hfl : ∀ f ∈ st.flushes, f.1 = FlushTrigger.size → f.2.length = max_batch) :
    (batcherStep max_batch st e).buffer.length < max_batch ∧
    (∀ f ∈ (batcherStep max_batch st e).flushes,
        f.1 = FlushTrigger.size → f.2.length = max_batch) := by
  cases e with
  | recv t =>
      by_cases hcond : max_batch ≤ (st.buffer ++ [t]).length
      · have hstep : batcherStep max_batch st (.recv t) =
            ⟨[], st.flushes ++ [(.size, st.buffer ++ [t])]⟩ := by
          simp only [batcherStep]
          rw [if_pos hcond]
        rw [hstep]
        constructor
        · simpa using hmb
        · intro f hf hsz
          rcases List.mem_append.mp hf with hf | hf
          · exact hfl f hf hsz
          · have hfeq : f = (FlushTrigger.size, st.buffer ++ [t]) := by simpa using hf
            subst hfeq
            simp only [List.length_append, List.length_cons, List.length_nil] at hcond ⊢
            omega
      · have hstep : batcherStep max_batch st (.recv t) =
            ⟨st.buffer ++ [t], st.flushes⟩ := by
          simp only [batcherStep]
          rw [if_neg hcond]
        rw [hstep]
        constructor
        · simp only [List.length_append, List.length_cons, List.length_nil] at hcond ⊢
          omega
        · exact hfl
  | tick =>
      by_cases hemp : st.buffer.isEmpty
      · have hstep : batcherStep max_batch st .tick = st := by
          simp [batcherStep, hemp]
        rw [hstep]
        exact ⟨hbuf, hfl⟩
      · have hstep : batcherStep max_batch st .tick =
            ⟨[], st.flushes ++ [(.timer, st.buffer)]⟩ := by
          simp [batcherStep, hemp]
        rw [hstep]
        constructor
        · simpa using hmb
        · intro f hf hsz
          rcases List.mem_append.mp hf with hf | hf
          · exact hfl f hf hsz
          · have hfeq : f = (FlushTrigger.timer, st.buffer) := by simpa using hf
            subst hfeq
            simp at hsz

theorem batcherRun_foldl_inv (max_batch : Nat) (hmb : 1 ≤ max_batch)
    (events : List BatchEvent) :
    ∀ st : BatcherState, st.buffer.length < max_batch →
      (∀ f ∈ st.flushes, f.1 = FlushTrigger.size → f.2.length = max_batch) →
      (events.foldl (batcherStep max_batch) st).buffer.length < max_batch ∧
      (∀ f ∈ (events.foldl (batcherStep max_batch) st).flushes,
          f.1 = FlushTrigger.size → f.2.length = max_batch) := by
  induction events with
  | nil => intro st h1 h2; exact ⟨h1, h2⟩
  | cons e rest ih =>
      intro st h1 h2
      obtain ⟨h3, h4⟩ := batcherStep_preserves max_batch hmb st e h1 h2
      exact ih (batcherStep max_batch st e) h3 h4

/-- C4: with `max_batch ≥ 1`, the writer's resting buffer always holds
strictly fewer than `max_batch` records (so never more than
`max_batch`); every size-triggered flush carries exactly `max_batch`
records; and on a receive from an in-invariant state a flush fires iff
the appended record makes the length reach exactly `max_batch`. -/
theorem batcher_size_trigger_invariant (max_batch : Nat) (hmb : 1 ≤ max_batch)
    (events : List BatchEvent) :
    (batcherRun max_batch events).buffer.length < max_batch ∧
    (∀ f ∈ (batcherRun max_batch events).flushes,
        f.1 = FlushTrigger.size → f.2.length = max_batch) ∧
    (∀ st : BatcherState, ∀ t : Telemetry, st.buffer.length < max_batch →
      ((batcherStep max_batch st (.recv t)).flushes ≠ st.flushes ↔
        st.buffer.length + 1 = max_batch)) := by
  refine ⟨?_, ?_, ?_⟩
  · exact (batcherRun_foldl_inv max_batch hmb events ⟨[], []⟩ (by simpa using hmb)
      (by simp)).1
  · exact (batcherRun_foldl_inv max_batch hmb events ⟨[], []⟩ (by simpa using hmb)
      (by simp)).2
  · intro st t hbuf
    by_cases hcond : max_batch ≤ (st.buffer ++ [t]).length
    · have hstep : batcherStep max_batch st (.recv t) =
          ⟨[], st.flushes ++ [(.size, st.buffer ++ [t])]⟩ := by
        simp only [batcherStep]
        rw [if_pos hcond]
      rw [hstep]
      simp only [List.length_append, List.length_cons, List.length_nil] at hcond
      constructor
      · intro _
        omega
      · intro _ hcontra
        have hlen := congrArg List.length hcontra
        simp at hlen
    · have hstep : batcherStep max_batch st (.recv t) =
          ⟨st.buffer ++ [t], st.flushes⟩ := by
        simp only [batcherStep]
        rw [if_neg hcond]
      rw [hstep]
      simp only [List.length_append, List.length_cons, List.length_nil] at hcond
      constructor
      · intro hne
        exact absurd rfl hne
      · intro heq
        omega

/-- C4 witness: with `max_batch = 2`, two receives produce one
size-triggered flush of exactly two records and an empty resting
buffer, and the step characterization holds at a concrete state. -/
theorem batcher_size_trigger_invariant_witness :
    (batcherRun 2 [.recv okTelemetry, .recv okTelemetry]).buffer.length < 2 ∧
    (∀ f ∈ (batcherRun 2 [.recv okTelemetry, .recv okTelemetry]).flushes,
        f.1 = FlushTrigger.size → f.2.length = 2) ∧
    ((batcherStep 2 ⟨[okTelemetry], []⟩ (.recv okTelemetry)).flushes ≠
        ([] : List (FlushTrigger × List Telemetry)) ↔ 1 + 1 = 2) := by
  obtain ⟨h1, h2, h3⟩ :=
    batcher_size_trigger_invariant 2 (by omega) [.recv okTelemetry, .recv okTelemetry]
  exact ⟨h1, h2, h3 ⟨[okTelemetry], []⟩ okTelemetry (by simp)⟩

/-- Attempt budget of the storage adapter's inner retry loop
(src/ingestor/src/db.rs, `let max_attempts = 5`). -/
def INSERT_MAX_ATTEMPTS : Nat := 5

/-- Observable outcome of `insert_batch`: the result, the number of
attempts made, the number of `db_failures_total` increments, and the
backoff sleeps (ms) in order. -/
structure InsertOut where
  result : Except Error Unit
  attempts : Nat
  incs : Nat
  sleeps : List Nat

/-- The retry loop of `insert_batch` (src/ingestor/src/db.rs).  `res n`
is the result of `insert_batch_inner` on attempt `n`.  A database error
that is transient and not on the final attempt increments
`db_failures_total`, sleeps `100 * min(2^(attempts-1), 32)` ms and
retries; otherwise the error is returned; a non-database error is
returned at once. -/
def insertLoop (res : Nat → Except Error Unit) (attempt : Nat) : InsertOut :=
  match res (attempt + 1) with
  | .ok _ => ⟨.ok (), attempt + 1, 0, []⟩
  | .error (.Database db_err) =>
      if INSERT_MAX_ATTEMPTS ≤ attempt + 1 ∨ is_transient_error db_err = false then
        ⟨.error (.Database db_err), attempt + 1, 0, []⟩
      else
        let rest := insertLoop res (attempt + 1)
        ⟨rest.result, rest.attempts, rest.incs + 1,
          (100 * min (2 ^ attempt) 32) :: rest.sleeps⟩
  | .error e => ⟨.error e, attempt + 1, 0, []⟩
termination_by INSERT_MAX_ATTEMPTS - attempt
decreasing_by
  simp only [INSERT_MAX_ATTEMPTS] at *
  omega

/-- src/ingestor/src/db.rs, `insert_batch`: an empty batch returns Ok
without touching the database; otherwise the retry loop runs. -/
def insert_batch (batch : List Telemetry) (res : Nat → Except Error Unit) : InsertOut :=
  if batch.isEmpty then ⟨.ok (), 0, 0, []⟩
  else insertLoop res 0

/-- A permanently failing insert oracle: every attempt reports a
unique-violation database error (SQLSTATE 23505, not transient). -/
def permanentRes : Nat → Except Error Unit :=
  fun _ => .error (.Database (.Database (some "23505")))

/-- C5 counterexample: on a permanent database error the first attempt
fails and `insert_batch` returns at once with zero
`db_failures_total` increments, while the claim requires an increment
on each failed attempt. -/
theorem insert_batch_permanent_failure_no_increment :
    (insert_batch [okTelemetry] permanentRes).attempts = 1 ∧
    (insert_batch [okTelemetry] permanentRes).result =
      .error (.Database (.Database (some "23505"))) ∧
    (insert_batch [okTelemetry] permanentRes).incs = 0 := by
  have h : insert_batch [okTelemetry] permanentRes =
      ⟨.error (.Database (.Database (some "23505"))), 1, 0, []⟩ := by
    rw [insert_batch]
    rw [if_neg (by simp)]
    rw [insertLoop]
    simp [permanentRes, is_transient_error]
  rw [h]
  exact ⟨rfl, rfl, rfl⟩

theorem insertLoop_characterization (res : Nat → Except Error Unit) :
    ∀ attempt, attempt < INSERT_MAX_ATTEMPTS →
      (attempt + 1 ≤ (insertLoop res attempt).attempts ∧
        (insertLoop res attempt).attempts ≤ INSERT_MAX_ATTEMPTS) ∧
      (insertLoop res attempt).incs = (insertLoop res attempt).attempts - (attempt + 1) ∧
      (insertLoop res attempt).sleeps =
        (List.range ((insertLoop res attempt).attempts - (attempt + 1))).map
          (fun i => 100 * min (2 ^ (attempt + i)) 32) ∧
      (∀ i, attempt + 1 ≤ i → i < (insertLoop res attempt).attempts →
        ∃ db, res i = .error (.Database db) ∧ is_transient_error db = true) ∧
      ((insertLoop res attempt).result = .ok () →
        res (insertLoop res attempt).attempts = .ok ()) ∧
      (∀ e, (insertLoop res attempt).result = .error e →
        res (insertLoop res attempt).attempts = .error e ∧
        ∀ db, e = .Database db → is_transient_error db = true →
          (insertLoop res attempt).attempts = INSERT_MAX_ATTEMPTS) := by
  intro attempt
  induction attempt using insertLoop.induct res with
  | case1 x u h =>
      intro hx
      have heq : insertLoop res x = ⟨.ok (), x + 1, 0, []⟩ := by
        rw [insertLoop]; simp only [h]
      rw [heq]
      refine ⟨⟨le_refl _, by show x + 1 ≤ INSERT_MAX_ATTEMPTS; omega⟩,
        by simp, by simp, ?_, ?_, ?_⟩
      · intro i h1 h2
        have h2b : i < x + 1 := h2
        omega
      · intro _
        exact h
      · intro e he
        simp at he
  | case2 x db_err h hcond =>
      intro hx
      have heq : insertLoop res x = ⟨.error (.Database db_err), x + 1, 0, []⟩ := by
        rw [insertLoop]; simp only [h, if_pos hcond]
      rw [heq]
      refine ⟨⟨le_refl _, by show x + 1 ≤ INSERT_MAX_ATTEMPTS; omega⟩,
        by simp, by simp, ?_, ?_, ?_⟩
      · intro i h1 h2
        have h2b : i < x + 1 := h2
        omega
      · intro hok
        simp at hok
      · intro e he
        simp only [Except.error.injEq] at he
        subst he
        refine ⟨h, ?_⟩
        intro db hdb htr
        injection hdb with hdb2
        subst hdb2
        rcases hcond with hc | hc
        · show x + 1 = INSERT_MAX_ATTEMPTS
          omega
        · rw [htr] at hc
          cases hc
  | case3 x db_err h hcond ih =>
      intro hx
      obtain ⟨hc1, hc2⟩ := not_or.mp hcond
      have htr : is_transient_error db_err = true := by
        revert hc2
        cases is_transient_error db_err <;> simp
      have hlt : x + 1 < INSERT_MAX_ATTEMPTS := by omega
      obtain ⟨⟨ha1, ha2⟩, hincs, hsleeps, hmid, hok, herr⟩ := ih hlt
      have heq : insertLoop res x =
          ⟨(insertLoop res (x + 1)).result, (insertLoop res (x + 1)).attempts,
            (insertLoop res (x + 1)).incs + 1,
            (100 * min (2 ^ x) 32) :: (insertLoop res (x + 1)).sleeps⟩ := by
        rw [insertLoop]; simp only [h, if_neg hcond]
      rw [heq]
      refine ⟨⟨by simp only; omega, by simp only; omega⟩, by simp only; omega, ?_, ?_, ?_, ?_⟩
      · simp only
        have hn : (insertLoop res (x + 1)).attempts - (x + 1) =
            ((insertLoop res (x + 1)).attempts - (x + 2)) + 1 := by omega
        rw [hn, List.range_succ_eq_map, List.map_cons, List.map_map]
        refine congrArg₂ List.cons (by simp) ?_
        rw [hsleeps]
        apply List.map_congr_left
        intro i _
        have hxi : x + 1 + i = x + (i + 1) := by omega
        simp [Function.comp, hxi]
      · intro i h1 h2
        simp only at h2
        rcases Nat.eq_or_lt_of_le h1 with h1 | h1
        · subst h1
          exact ⟨db_err, h, htr⟩
        · exact hmid i h1 h2
      · intro hres
        exact hok hres
      · intro e he
        exact herr e he
  | case4 x e hnotdb h =>
      intro hx
      have heq : insertLoop res x = ⟨.error e, x + 1, 0, []⟩ := by
        rw [insertLoop]
        rcases e with _ | db | _ | m | m | _ | _
        · simp only [h]
        · exact absurd rfl (hnotdb db)
        · simp only [h]
        · simp only [h]
        · simp only [h]
        · simp only [h]
        · simp only [h]
      rw [heq]
      refine ⟨⟨le_refl _, by show x + 1 ≤ INSERT_MAX_ATTEMPTS; omega⟩,
        by simp, by simp, ?_, ?_, ?_⟩
      · intro i h1 h2
        have h2b : i < x + 1 := h2
        omega
      · intro hok
        simp at hok
      · intro e2 he
        simp only [Except.error.injEq] at he
        subst he
        refine ⟨h, ?_⟩
        intro db hdb _
        exact absurd hdb (fun hdb2 => hnotdb db hdb2)

/-- C5 (amended): for a non-empty batch, `insert_batch` makes between
1 and 5 attempts; every attempt before the last failed with a transient
database error; `db_failures_total` is incremented once per retried
attempt — that is `attempts − 1` times, not on the final failed attempt
nor on a permanent error — with a backoff sleep of
`100 × min(2^(attempt−1), 32)` ms after each retried attempt; the
result reflects the final attempt, and an error is returned only when
it is permanent or the five attempts are exhausted. -/
theorem insert_batch_retry_characterization (batch : List Telemetry)
    (res : Nat → Except Error Unit) (hb : batch ≠ []) :
    (1 ≤ (insert_batch batch res).attempts ∧
      (insert_batch batch res).attempts ≤ INSERT_MAX_ATTEMPTS) ∧
    (insert_batch batch res).incs = (insert_batch batch res).attempts - 1 ∧
    (insert_batch batch res).sleeps =
      (List.range ((insert_batch batch res).attempts - 1)).map
        (fun i => 100 * min (2 ^ i) 32) ∧
    (∀ i, 1 ≤ i → i < (insert_batch batch res).attempts →
      ∃ db, res i = .error (.Database db) ∧ is_transient_error db = true) ∧
    ((insert_batch batch res).result = .ok () →
      res (insert_batch batch res).attempts = .ok ()) ∧
    (∀ e, (insert_batch batch res).result = .error e →
      res (insert_batch batch res).attempts = .error e ∧
      ∀ db, e = .Database db → is_transient_error db = true →
        (insert_batch batch res).attempts = INSERT_MAX_ATTEMPTS) := by
  have hne : ¬ batch.isEmpty := by simpa [List.isEmpty_iff] using hb
  have hbatch : insert_batch batch res = insertLoop res 0 := by
    rw [insert_batch, if_neg hne]
  have h0 : (0 : Nat) < INSERT_MAX_ATTEMPTS := by simp [INSERT_MAX_ATTEMPTS]
  obtain ⟨⟨ha1, ha2⟩, hincs, hsleeps, hmid, hok, herr⟩ :=
    insertLoop_characterization res 0 h0
  rw [hbatch]
  refine ⟨⟨ha1, ha2⟩, hincs, ?_, hmid, hok, herr⟩
  rw [hsleeps]
  apply List.map_congr_left
  intro i _
  simp

/-- C5 amended, witness: on the always-permanent oracle the increment
count equals attempts − 1 (both are in fact 1 − 1 = 0). -/
theorem insert_batch_retry_characterization_witness :
    (insert_batch [okTelemetry] permanentRes).incs =
      (insert_batch [okTelemetry] permanentRes).attempts - 1 :=
  (insert_batch_retry_characterization [okTelemetry] permanentRes (by simp)).2.1

/-- Query parameters of `GET /api/v1/telemetry`
(src/ingestor/src/rest.rs, `TelemetryQuery`).  The source field `end`
is a Lean keyword and is embedded as `endTime`. -/
structure TelemetryQuery where
  device_id : Option String
  start : Option Int
  endTime : Option Int
  limit : Option Nat
  offset : Option Nat

/-- Response wrapper (src/ingestor/src/model.rs, `TelemetryResponse`). -/
structure TelemetryResponse where
  data : List Telemetry
  total : Nat
  limit : Nat
  offset : Nat

/-- The WHERE clause built by `get_telemetry`: `device_id = $`,
`ts >= $start`, `ts <= $end`, each only when the parameter is
present. -/
def matchesFilters (q : TelemetryQuery) (t : Telemetry) : Bool :=
  (match q.device_id with
   | some d => t.device_id == d
   | none => true) &&
  (match q.start with
   | some s => decide (s ≤ t.timestamp)
   | none => true) &&
  (match q.endTime with
   | some e => decide (t.timestamp ≤ e)
   | none => true)

/-- src/ingestor/src/rest.rs, `get_telemetry`: `limit` is
`params.limit.unwrap_or(100).min(1000)`, `offset` is
`params.offset.unwrap_or(0)`; `table` stands for the telemetry table
rows in `ORDER BY ts DESC` order, so the SQL `WHERE … LIMIT … OFFSET …`
returns the window below; the response's `total` is the length of the
fetched page. -/
def get_telemetry (params : TelemetryQuery) (table : List Telemetry) : TelemetryResponse :=
  { data := ((table.filter (matchesFilters params)).drop (params.offset.getD 0)).take
      (min (params.limit.getD 100) 1000),
    total := (((table.filter (matchesFilters params)).drop (params.offset.getD 0)).take
      (min (params.limit.getD 100) 1000)).length,
    limit := min (params.limit.getD 100) 1000,
    offset := params.offset.getD 0 }

/-- C10: the response's `total` always equals the length of the current
page (`data`), hence never exceeds `limit`, and it is not the number of
rows matching the filters across all pages: with `limit = 1` and two
matching rows, `total` is 1 while 2 rows match. -/
theorem rest_total_equals_page_length :
    (∀ params table, (get_telemetry params table).total =
        (get_telemetry params table).data.length ∧
      (get_telemetry params table).total ≤ (get_telemetry params table).limit) ∧
    (get_telemetry ⟨none, none, none, some 1, none⟩ [okTelemetry, nanTelemetry]).total <
      ([okTelemetry, nanTelemetry].filter
        (matchesFilters ⟨none, none, none, some 1, none⟩)).length := by
  refine ⟨fun params table => ⟨rfl, ?_⟩, ?_⟩
  · show (((table.filter (matchesFilters params)).drop (params.offset.getD 0)).take
      (min (params.limit.getD 100) 1000)).length ≤ min (params.limit.getD 100) 1000
    exact List.length_take_le _ _
  · show (1 : Nat) < 2
    omega

end Ingestor
